import Mathlib

/-!
Verification of the PONS network simulator core (`pons/simulation.py`,
`tools/ponsanim/ponsanim.py`) against its natural-language specification.
Python dictionaries are embedded as Lean structures or association lists,
floating point quantities as rationals, simulated time as a rational, and
the simpy discrete-event engine as an explicit event-queue step function.
-/

namespace PONS

/-! ## Routing statistics (NetSim.__init__ lines 36-51, NetSim.run lines 228-247) -/

/-- The `routing_stats` dictionary, as a structure.  Integer counters are `Nat`,
the floating-point raw latency sum and the derived metrics are `Rat`.
The field `overhead` embeds the source key `"overhead_ratio"`. -/
structure RoutingStats where
  created : Nat
  delivered : Nat
  dropped : Nat
  hops : Nat
  latency : Rat
  started : Nat
  relayed : Nat
  removed : Nat
  aborted : Nat
  dups : Nat
  latency_avg : Rat
  delivery_prob : Rat
  hops_avg : Rat
  overhead : Rat
deriving DecidableEq

/-- The initial `routing_stats` of `NetSim.__init__` (all counters and sums 0). -/
def initRoutingStats : RoutingStats :=
  ⟨0, 0, 0, 0, 0, 0, 0, 0, 0, 0, 0, 0, 0, 0⟩

/-- The derived-metric computation at the end of `NetSim.run` (lines 228-243):
if `delivered > 0`, set `latency_avg`, `hops_avg` and the overhead ratio from
the raw sums; if `created > 0`, set `delivery_prob`, else set it to 0. -/
def finalize_routing_stats (s : RoutingStats) : RoutingStats :=
  let s1 :=
    if s.delivered > 0 then
      { s with
        latency_avg := s.latency / (s.delivered : Rat)
        hops_avg := (s.hops : Rat) / (s.delivered : Rat)
        overhead := ((s.relayed : Rat) - (s.delivered : Rat)) / (s.delivered : Rat) }
    else s
  if s1.created > 0 then
    { s1 with delivery_prob := (s1.delivered : Rat) / (s1.created : Rat) }
  else
    { s1 with delivery_prob := 0 }

/-- C1: at run completion `NetSim.run` derives `latency_avg = latency/delivered`,
`hops_avg = hops/delivered` and `overhead_ratio = (relayed-delivered)/delivered`
whenever `delivered > 0`, leaving each at its initial value 0 when
`delivered = 0` (no division is performed in that case), and derives
`delivery_prob = delivered/created` whenever `created > 0` and exactly 0 when
`created = 0`. -/
theorem C1_finalize_metrics (s : RoutingStats)
    (hla : s.latency_avg = 0) (hha : s.hops_avg = 0) (hov : s.overhead = 0) :
    (s.delivered > 0 →
      (finalize_routing_stats s).latency_avg = s.latency / (s.delivered : Rat) ∧
      (finalize_routing_stats s).hops_avg = (s.hops : Rat) / (s.delivered : Rat) ∧
      (finalize_routing_stats s).overhead =
        ((s.relayed : Rat) - (s.delivered : Rat)) / (s.delivered : Rat)) ∧
    (s.delivered = 0 →
      (finalize_routing_stats s).latency_avg = 0 ∧
      (finalize_routing_stats s).hops_avg = 0 ∧
      (finalize_routing_stats s).overhead = 0) ∧
    (s.created > 0 →
      (finalize_routing_stats s).delivery_prob = (s.delivered : Rat) / (s.created : Rat)) ∧
    (s.created = 0 → (finalize_routing_stats s).delivery_prob = 0) := by
  unfold finalize_routing_stats
  by_cases hd : s.delivered > 0 <;> by_cases hc : s.created > 0 <;>
    simp [hd, hc, hla, hha, hov] <;> omega

/-- Witness for C1 at a concrete statistics record. -/
theorem C1_finalize_metrics_witness :
    let s : RoutingStats := ⟨4, 2, 1, 6, 10, 0, 5, 0, 0, 0, 0, 0, 0, 0⟩
    s.latency_avg = 0 ∧ s.hops_avg = 0 ∧ s.overhead = 0 ∧
    ((s.delivered > 0 →
      (finalize_routing_stats s).latency_avg = s.latency / (s.delivered : Rat) ∧
      (finalize_routing_stats s).hops_avg = (s.hops : Rat) / (s.delivered : Rat) ∧
      (finalize_routing_stats s).overhead =
        ((s.relayed : Rat) - (s.delivered : Rat)) / (s.delivered : Rat)) ∧
    (s.delivered = 0 →
      (finalize_routing_stats s).latency_avg = 0 ∧
      (finalize_routing_stats s).hops_avg = 0 ∧
      (finalize_routing_stats s).overhead = 0) ∧
    (s.created > 0 →
      (finalize_routing_stats s).delivery_prob = (s.delivered : Rat) / (s.created : Rat)) ∧
    (s.created = 0 → (finalize_routing_stats s).delivery_prob = 0)) :=
  ⟨rfl, rfl, rfl, C1_finalize_metrics _ rfl rfl rfl⟩

/-! ## Scenario-config defaults in NetSim.setup (lines 81-91) -/

/-- The scenario `config` dictionary: each recognized key is `none` when the
key is omitted.  A `none` at the outer `Option` models `config = None`. -/
structure SimConfig where
  movement_logger : Option Bool
  peers_logger : Option Bool
  event_logging : Option Bool
  event_filter : Option (List String)
deriving DecidableEq

/-- The observable effects of the config block of `NetSim.setup` (lines 81-91):
whether the movement-logger and peers-logger processes are started, whether the
event log is opened, and the event filter installed.  When `config` is `None`
the whole block is skipped (no logger, no log, empty filter default). -/
structure SetupEffects where
  movementLoggerStarted : Bool
  peersLoggerStarted : Bool
  logOpened : Bool
  eventFilter : List String
deriving DecidableEq

/-- `NetSim.setup` lines 81-91: `config.get` with defaults `True`, `True`,
`False` and `[]` respectively. -/
def setupEffects : Option SimConfig → SetupEffects
  | none => ⟨false, false, false, []⟩
  | some c =>
    ⟨c.movement_logger.getD true, c.peers_logger.getD true,
     c.event_logging.getD false, c.event_filter.getD []⟩

/-- C10: with all recognized keys omitted from the scenario config, the
movement logger and the peers logger default to enabled, event logging
defaults to disabled (the log is not opened), and the event filter defaults
to the empty list. -/
theorem C10_setup_defaults :
    setupEffects (some ⟨none, none, none, none⟩) = ⟨true, true, false, []⟩ := by
  rfl

/-! ## CONFIG event-log payload contract (NetSim.run lines 156-168 vs
tools/ponsanim/ponsanim.py lines 213-218) -/

/-- The payload keys of the `CONFIG` record emitted by `NetSim.run` for each
node (lines 157-168), in source order. -/
def config_payload_keys : List String :=
  ["event", "id", "x", "y", "capacity", "used"]

/-- The payload keys the ponsanim visualizer reads from a `CONFIG` record when
building a node (ponsanim.py lines 214-218), in source order. -/
def ponsanim_config_reads : List String :=
  ["x", "y", "id", "name"]

/-- C7 (code evaluated at the failing input): the visualizer reads the payload
key `"name"` from every `CONFIG` record, but the `CONFIG` payload emitted by
`NetSim.run` has no `"name"` key, so the claimed bit-exact field-name contract
between producer and consumer does not hold. -/
theorem C7_config_name_key_missing :
    "name" ∈ ponsanim_config_reads ∧ "name" ∉ config_payload_keys := by
  decide

/-! ## The top-level run loop time slicing (NetSim.run lines 191-195) -/

/-- One iteration of the top-level while loop of `NetSim.run` (lines 191-195):
if the clock has not reached `duration + 1`, run the engine up to
`min (duration + 1) (now + 5)`; otherwise the loop body does not execute. -/
def sliceStep (d : Nat) (now : Rat) : Rat :=
  if now < (d : Rat) + 1 then min ((d : Rat) + 1) (now + 5) else now

theorem sliceStep_iterate (d : Nat) :
    ∀ n : Nat, (sliceStep d)^[n] 0 = min ((d : Rat) + 1) (5 * n) := by
  intro n
  induction n with
  | zero =>
    simp only [Function.iterate_zero, id_eq, Nat.cast_zero, mul_zero]
    have h1 : (0 : Rat) ≤ (d : Rat) + 1 := by positivity
    simp [min_eq_right h1]
  | succ n ih =>
    rw [Function.iterate_succ_apply', ih]
    by_cases h : 5 * (n : Rat) < (d : Rat) + 1
    · rw [min_eq_right (le_of_lt h)]
      rw [sliceStep, if_pos h]
      congr 1
      push_cast
      ring
    · push_neg at h
      rw [min_eq_left h]
      rw [sliceStep, if_neg (lt_irrefl _)]
      rw [min_eq_left]
      refine le_trans h ?_
      push_cast
      linarith [Nat.cast_nonneg (α := Rat) n]

/-- C2: the top-level run loop of `NetSim.run` advances the clock in slices
that strictly increase time, never run past `min (duration+1) (now+5)` (so at
most 5 simulated seconds each), does not execute once the clock has reached
`duration + 1`, and terminates: after `duration / 5 + 1` slices starting from
time 0 the clock equals exactly `duration + 1`. -/
theorem C2_run_loop_terminates (d : Nat) :
    (∀ now : Rat, now < (d : Rat) + 1 →
      now < sliceStep d now ∧
      sliceStep d now ≤ min ((d : Rat) + 1) (now + 5)) ∧
    (∀ now : Rat, ¬ now < (d : Rat) + 1 → sliceStep d now = now) ∧
    (sliceStep d)^[d / 5 + 1] 0 = (d : Rat) + 1 := by
  refine ⟨fun now h => ?_, fun now h => by rw [sliceStep, if_neg h], ?_⟩
  · rw [sliceStep, if_pos h]
    exact ⟨lt_min h (by linarith), le_refl _⟩
  · rw [sliceStep_iterate d (d / 5 + 1)]
    rw [min_eq_left]
    have h5 : d + 1 ≤ 5 * (d / 5 + 1) := by omega
    calc ((d : Rat) + 1) = ((d + 1 : Nat) : Rat) := by push_cast; ring
    _ ≤ ((5 * (d / 5 + 1) : Nat) : Rat) := by exact_mod_cast Nat.cast_le.mpr h5
    _ = 5 * ((d / 5 + 1 : Nat) : Rat) := by push_cast; ring

/-- Witness for C2 at duration 7, clock 2. -/
theorem C2_run_loop_terminates_witness :
    (2 : Rat) < (7 : Nat) + 1 ∧
    ((2 : Rat) < sliceStep 7 2 ∧ sliceStep 7 2 ≤ min (((7 : Nat) : Rat) + 1) ((2 : Rat) + 5)) ∧
    (sliceStep 7)^[7 / 5 + 1] 0 = ((7 : Nat) : Rat) + 1 :=
  ⟨by norm_num, (C2_run_loop_terminates 7).1 2 (by norm_num),
   (C2_run_loop_terminates 7).2.2⟩

/-! ## Message-generator dispatch in NetSim.setup (lines 97-108) -/

/-- A message-generator configuration; only the `"type"` key matters for
dispatch.  `none` models an absent `"type"` key, `some none` a key present
with value `None`, `some (some s)` a string value. -/
structure MsgGen where
  type : Option (Option String)
deriving DecidableEq

/-- A started generator process: `message_event_generator` (single-shot) or
`message_burst_generator`. -/
inductive GenProc where
  | single (g : MsgGen)
  | burst (g : MsgGen)
deriving DecidableEq

/-- The generator-dispatch loop of `NetSim.setup` (lines 97-108): absent,
`None` or `"single"` starts the single-shot generator, `"burst"` the burst
generator, anything else raises. -/
def setupGens : List MsgGen → Except String (List GenProc)
  | [] => .ok []
  | g :: rest =>
    if g.type = none ∨ g.type = some none ∨ g.type = some (some "single") then
      (setupGens rest).map (GenProc.single g :: ·)
    else if g.type = some (some "burst") then
      (setupGens rest).map (GenProc.burst g :: ·)
    else
      .error "unknown message generator type"

/-- The simulated clock at the end of a scenario: `setup` followed by `run`.
If `setup` raises, `run` is never entered and no simulated time elapses;
otherwise the run loop finishes at `duration + 1`. -/
def scenarioClock (gens : List MsgGen) (d : Nat) : Rat :=
  match setupGens gens with
  | .error _ => 0
  | .ok _ => (d : Rat) + 1

/-- C6: generator dispatch in `NetSim.setup`: an absent, `None` or `"single"`
type starts a single-shot generator; `"burst"` starts a burst generator; any
other value makes setup fail fast with the configuration error, and then no
simulated time ever elapses (the run loop never executes). -/
theorem C6_generator_dispatch :
    (∀ g : MsgGen,
      ((g.type = none ∨ g.type = some none ∨ g.type = some (some "single")) →
        setupGens [g] = .ok [.single g]) ∧
      (g.type = some (some "burst") → setupGens [g] = .ok [.burst g]) ∧
      (∀ s, g.type = some (some s) → s ≠ "single" → s ≠ "burst" →
        setupGens [g] = .error "unknown message generator type")) ∧
    (∀ gens d, (∃ e, setupGens gens = .error e) → scenarioClock gens d = 0) := by
  constructor
  · intro g
    refine ⟨fun h => ?_, fun h => ?_, fun s hs h1 h2 => ?_⟩
    · simp [setupGens, h, Except.map]
    · have hne : ¬ (g.type = none ∨ g.type = some none ∨ g.type = some (some "single")) := by
        rw [h]; simp
      simp [setupGens, hne, h, Except.map]
    · have hne : ¬ (g.type = none ∨ g.type = some none ∨ g.type = some (some "single")) := by
        rw [hs]; simp [h1]
      have hnb : ¬ g.type = some (some "burst") := by
        rw [hs]; simp [h2]
      simp [setupGens, hne, hnb]
  · intro gens d ⟨e, he⟩
    rw [scenarioClock, he]

/-- Witness for C6 at a concrete malformed generator type. -/
theorem C6_generator_dispatch_witness :
    (MsgGen.mk (some (some "weird"))).type = some (some "weird") ∧
    ("weird" : String) ≠ "single" ∧ ("weird" : String) ≠ "burst" ∧
    setupGens [MsgGen.mk (some (some "weird"))] = .error "unknown message generator type" ∧
    (∃ e, setupGens [MsgGen.mk (some (some "weird"))] = .error e) ∧
    scenarioClock [MsgGen.mk (some (some "weird"))] 120 = 0 :=
  ⟨rfl, by decide, by decide,
   ((C6_generator_dispatch.1 ⟨some (some "weird")⟩).2.2 "weird" rfl (by decide) (by decide)),
   ⟨"unknown message generator type",
    ((C6_generator_dispatch.1 ⟨some (some "weird")⟩).2.2 "weird" rfl (by decide) (by decide))⟩,
   C6_generator_dispatch.2 [MsgGen.mk (some (some "weird"))] 120
    ⟨"unknown message generator type",
     ((C6_generator_dispatch.1 ⟨some (some "weird")⟩).2.2 "weird" rfl (by decide) (by decide))⟩⟩

/-! ## Contacts and contact plans (pons/net/contactplan.py is not under src;
its queries are modelled from the spec, section 4.1) -/

/-- A scheduled contact: a node pair and a time interval. -/
structure Contact where
  nodes : Nat × Nat
  tstart : Rat
  tend : Rat
deriving DecidableEq

/-- A contact plan is its list of contacts. -/
abbrev ContactPlan := List Contact

/-! ## Neighbor seeding at run start (NetSim.using_contactplan lines 114-119,
NetSim.run lines 183-189) -/

/-- A node network interface: its radio range and optionally a contact plan. -/
structure NetIface where
  range : Rat
  contactplan : Option ContactPlan
deriving DecidableEq

/-- A simulation node: id, position, interfaces and current neighbor ids. -/
structure SimNode where
  id : Nat
  x : Rat
  y : Rat
  net : List NetIface
  neighbors : List Nat
deriving DecidableEq

/-- `NetSim.using_contactplan` (lines 114-119): true iff some interface of
some node is bound to a contact plan. -/
def using_contactplan (ns : List SimNode) : Bool :=
  ns.any (fun n => n.net.any (fun net => net.contactplan.isSome))

/-- Modelled from the spec: `Node.calc_neighbors` is not under src.  Spec 4.2:
a node is in range of another iff their distance is at most the interface
range, with range 0 a sentinel meaning always in range; the neighbor set is
recomputed by a distance scan over all nodes. -/
def calc_neighbors (n : SimNode) (all : List SimNode) : SimNode :=
  { n with neighbors :=
      ((all.filter (fun m =>
        decide (m.id ≠ n.id) &&
        n.net.any (fun iface =>
          decide (iface.range = 0) ||
          decide ((m.x - n.x) ^ 2 + (m.y - n.y) ^ 2 ≤ iface.range ^ 2)))).map
        (fun m => m.id)) }

/-- Modelled from the spec: `Node.add_all_neighbors` is not under src.  Spec
4.2: it seeds the node neighbor set directly (every other node), with no
distance scan. -/
def add_all_neighbors (n : SimNode) (all : List SimNode) : SimNode :=
  { n with neighbors := (all.filter (fun m => decide (m.id ≠ n.id))).map (fun m => m.id) }

/-- The neighbor-seeding step at the start of `NetSim.run` (lines 183-189):
if no interface uses a contact plan, every node scans distances via
`calc_neighbors`; otherwise every node is seeded via `add_all_neighbors`. -/
def seedNeighbors (ns : List SimNode) : List SimNode :=
  if ¬ using_contactplan ns then
    ns.map (fun n => calc_neighbors n ns)
  else
    ns.map (fun n => add_all_neighbors n ns)

/-- C4: at run start, if at least one node interface is bound to a contact
plan then every node is seeded via `add_all_neighbors` (no distance scan in
this step); if no interface has a contact plan, every node's neighbor set is
computed by the distance-based `calc_neighbors` over all nodes. -/
theorem C4_neighbor_seeding (ns : List SimNode) :
    ((∃ n ∈ ns, ∃ i ∈ n.net, i.contactplan ≠ none) →
      seedNeighbors ns = ns.map (fun n => add_all_neighbors n ns)) ∧
    ((∀ n ∈ ns, ∀ i ∈ n.net, i.contactplan = none) →
      seedNeighbors ns = ns.map (fun n => calc_neighbors n ns)) := by
  constructor
  · intro h
    have hc : using_contactplan ns = true := by
      obtain ⟨n, hn, i, hi, hne⟩ := h
      simp only [using_contactplan, List.any_eq_true]
      exact ⟨n, hn, i, hi, Option.isSome_iff_ne_none.mpr hne⟩
    rw [seedNeighbors, if_neg (by simp [hc])]
  · intro h
    have hc : using_contactplan ns = false := by
      simp only [using_contactplan, List.any_eq_false, Bool.not_eq_true]
      intro n hn i hi
      simp [h n hn i hi]
    rw [seedNeighbors, if_pos (by simp [hc])]

/-- Witness for C4: a two-node scenario with one contact-plan interface. -/
theorem C4_neighbor_seeding_witness :
    let p : NetIface := ⟨0, some []⟩
    let a : SimNode := ⟨0, 0, 0, [p], []⟩
    let b : SimNode := ⟨1, 3, 4, [], []⟩
    (∃ n ∈ [a, b], ∃ i ∈ n.net, i.contactplan ≠ none) ∧
    seedNeighbors [a, b] = [a, b].map (fun n => add_all_neighbors n [a, b]) :=
  ⟨⟨⟨0, 0, 0, [⟨0, some []⟩], []⟩, by simp, ⟨0, some []⟩, by simp, by simp⟩,
   (C4_neighbor_seeding [⟨0, 0, 0, [⟨0, some []⟩], []⟩, ⟨1, 3, 4, [], []⟩]).1
     ⟨⟨0, 0, 0, [⟨0, some []⟩], []⟩, by simp, ⟨0, some []⟩, by simp, by simp⟩⟩

/-! ## The routing_stats dictionary as an association list: teardown deletes
raw sums (NetSim.run lines 228-247) -/

/-- `dict.get(k)`-style lookup over an association list (0 if absent; every
source access is to a key installed by `__init__`). -/
def dget (d : List (String × Rat)) (k : String) : Rat :=
  match d.find? (fun p => p.1 = k) with
  | some p => p.2
  | none => 0

/-- `dict[k] = v`: replace the value at `k` in place (append if absent). -/
def dset (d : List (String × Rat)) (k : String) (v : Rat) : List (String × Rat) :=
  if d.any (fun p => p.1 = k) then
    d.map (fun p => if p.1 = k then (k, v) else p)
  else d ++ [(k, v)]

/-- `del dict[k]`: remove the entry at `k`. -/
def ddel (d : List (String × Rat)) (k : String) : List (String × Rat) :=
  d.filter (fun p => ¬ p.1 = k)

/-- The `routing_stats` dictionary of `NetSim.__init__` (lines 36-51) with
symbolic counter values, in insertion order. -/
def initRoutingDict (c de dr h l st re rm ab du : Rat) : List (String × Rat) :=
  [("created", c), ("delivered", de), ("dropped", dr), ("hops", h),
   ("latency", l), ("started", st), ("relayed", re), ("removed", rm),
   ("aborted", ab), ("dups", du), ("latency_avg", 0), ("delivery_prob", 0),
   ("hops_avg", 0), ("overhead_ratio", 0)]

/-- The statistics teardown at the end of `NetSim.run` (lines 228-247) over
the dictionary: derive the averages, then delete the raw sums `"hops"` and
`"latency"`. -/
def finalizeRoutingDict (d : List (String × Rat)) : List (String × Rat) :=
  let d1 :=
    if dget d "delivered" > 0 then
      let a := dset d "latency_avg" (dget d "latency" / dget d "delivered")
      let b := dset a "hops_avg" (dget a "hops" / dget a "delivered")
      dset b "overhead_ratio" ((dget b "relayed" - dget b "delivered") / dget b "delivered")
    else d
  let d2 :=
    if dget d1 "created" > 0 then
      dset d1 "delivery_prob" (dget d1 "delivered" / dget d1 "created")
    else
      dset d1 "delivery_prob" 0
  ddel (ddel d2 "hops") "latency"

/-- The exported `routing_stats` after a run whose raw counters took the given
values: `__init__` dictionary, then the teardown of `NetSim.run`. -/
def exportedRoutingDict (c de dr h l st re rm ab du : Rat) : List (String × Rat) :=
  finalizeRoutingDict (initRoutingDict c de dr h l st re rm ab du)

/-- C8: after the teardown of `NetSim.run`, the exported `routing_stats` no
longer has the raw-sum keys `"hops"` and `"latency"`, while the standalone
counters keep their values unmodified and the four derived-metric keys remain
present. -/
theorem C8_teardown_keys (c de dr h l st re rm ab du : Rat) :
    (exportedRoutingDict c de dr h l st re rm ab du).find? (fun p => p.1 = "hops") = none ∧
    (exportedRoutingDict c de dr h l st re rm ab du).find? (fun p => p.1 = "latency") = none ∧
    dget (exportedRoutingDict c de dr h l st re rm ab du) "created" = c ∧
    dget (exportedRoutingDict c de dr h l st re rm ab du) "delivered" = de ∧
    dget (exportedRoutingDict c de dr h l st re rm ab du) "dropped" = dr ∧
    dget (exportedRoutingDict c de dr h l st re rm ab du) "started" = st ∧
    dget (exportedRoutingDict c de dr h l st re rm ab du) "relayed" = re ∧
    dget (exportedRoutingDict c de dr h l st re rm ab du) "removed" = rm ∧
    dget (exportedRoutingDict c de dr h l st re rm ab du) "aborted" = ab ∧
    dget (exportedRoutingDict c de dr h l st re rm ab du) "dups" = du ∧
    ((exportedRoutingDict c de dr h l st re rm ab du).find?
      (fun p => p.1 = "latency_avg")).isSome = true ∧
    ((exportedRoutingDict c de dr h l st re rm ab du).find?
      (fun p => p.1 = "delivery_prob")).isSome = true ∧
    ((exportedRoutingDict c de dr h l st re rm ab du).find?
      (fun p => p.1 = "hops_avg")).isSome = true ∧
    ((exportedRoutingDict c de dr h l st re rm ab du).find?
      (fun p => p.1 = "overhead_ratio")).isSome = true := by
  by_cases hde : de > 0 <;> by_cases hc : c > 0 <;>
    simp [exportedRoutingDict, finalizeRoutingDict, initRoutingDict, dget, dset, ddel,
      hde, hc, List.find?, List.filter]

/-! ## The simpy engine as an explicit event queue, and slice-size
independence of `env.run` (NetSim.run lines 191-195).

simpy processes events in `(time, priority, eid)` order and `env.run(until=t)`
schedules an urgent stop at `t`, so pending events at times `≥ t` are not
processed and the clock is left at exactly `t`.  We model the engine over an
abstract data state `σ` and an abstract handler: processing an event sets the
clock to its timestamp, updates the data state and schedules fresh events. -/

/-- A scheduled event: timestamp, registration id (FIFO tiebreak) and an
action code interpreted by the handler. -/
structure SimEv where
  time : Rat
  eid : Nat
  act : Nat
deriving DecidableEq

/-- The engine state: clock, next fresh registration id, pending events and
the simulation data (nodes, stats, ...). -/
structure SimSt (σ : Type) where
  now : Rat
  nextEid : Nat
  queue : List SimEv
  data : σ
deriving DecidableEq

/-- An event handler: given the clock, the action code and the data state,
returns the new data state and the events to schedule (timestamp, action). -/
def Handler (σ : Type) : Type :=
  Rat → Nat → σ → σ × List (Rat × Nat)

/-- Strict event order: earlier time first, registration order on ties. -/
def evBefore (a b : SimEv) : Bool :=
  decide (a.time < b.time) || (decide (a.time = b.time) && decide (a.eid < b.eid))

/-- The next event the engine would process (minimum in `evBefore` order). -/
def findMin : List SimEv → Option SimEv
  | [] => none
  | e :: rest =>
    match findMin rest with
    | none => some e
    | some m => if evBefore m e then some m else some e

/-- Schedule a batch of new events with fresh registration ids. -/
def pushEvents {σ : Type} (s : SimSt σ) (l : List (Rat × Nat)) : SimSt σ :=
  { s with
    queue := s.queue ++ l.enum.map (fun p => ⟨p.2.1, s.nextEid + p.1, p.2.2⟩)
    nextEid := s.nextEid + l.length }

/-- Process one event: advance the clock to its timestamp, remove it, run the
handler and schedule whatever it spawns. -/
def doEvent {σ : Type} (h : Handler σ) (s : SimSt σ) (e : SimEv) : SimSt σ :=
  let s1 : SimSt σ := { s with now := e.time, queue := s.queue.erase e }
  let r := h e.time e.act s1.data
  pushEvents { s1 with data := r.1 } r.2

/-- `env.run(until=t)`: process events strictly before `t` in order, then set
the clock to exactly `t`.  Fuel-indexed; `none` means the fuel ran out. -/
def runUntil {σ : Type} (h : Handler σ) : Nat → Rat → SimSt σ → Option (SimSt σ)
  | 0, _, _ => none
  | fuel + 1, t, s =>
    match findMin s.queue with
    | none => some { s with now := t }
    | some e => if t ≤ e.time then some { s with now := t }
                else runUntil h fuel t (doEvent h s e)

/-- The sliced top-level loop of `NetSim.run` (lines 191-195): while the clock
is below `duration + 1`, run the engine up to `min (duration+1) (now+5)`. -/
def slicedRun {σ : Type} (h : Handler σ) (d : Nat) (fuel : Nat) :
    Nat → SimSt σ → Option (SimSt σ)
  | 0, s => if s.now < (d : Rat) + 1 then none else some s
  | n + 1, s =>
    if s.now < (d : Rat) + 1 then
      (runUntil h fuel (min ((d : Rat) + 1) (s.now + 5)) s).bind (slicedRun h d fuel n)
    else some s

theorem runUntil_now {σ : Type} (h : Handler σ) :
    ∀ fuel t (s s2 : SimSt σ), runUntil h fuel t s = some s2 → s2.now = t := by
  intro fuel
  induction fuel with
  | zero => intro t s s2 hr; exact absurd hr (by simp [runUntil])
  | succ n ih =>
    intro t s s2 hr
    cases hm : findMin s.queue with
    | none => simp only [runUntil, hm] at hr; cases hr; rfl
    | some e =>
      simp only [runUntil, hm] at hr
      by_cases ht : t ≤ e.time
      · rw [if_pos ht] at hr; cases hr; rfl
      · rw [if_neg ht] at hr; exact ih t _ s2 hr

theorem runUntil_now_irrel {σ : Type} (h : Handler σ) :
    ∀ fuel t (s : SimSt σ) v,
      runUntil h fuel t { s with now := v } = runUntil h fuel t s := by
  intro fuel t s v
  cases fuel with
  | zero => rfl
  | succ n =>
    cases hm : findMin s.queue with
    | none => simp only [runUntil, hm]
    | some e =>
      simp only [runUntil, hm]
      by_cases ht : t ≤ e.time
      · rw [if_pos ht, if_pos ht]
      · rw [if_neg ht, if_neg ht]
        rfl

theorem runUntil_mono {σ : Type} (h : Handler σ) :
    ∀ fuel k t (s s2 : SimSt σ),
      runUntil h fuel t s = some s2 → runUntil h (fuel + k) t s = some s2 := by
  intro fuel
  induction fuel with
  | zero => intro k t s s2 hr; exact absurd hr (by simp [runUntil])
  | succ n ih =>
    intro k t s s2 hr
    have hs : n + 1 + k = (n + k) + 1 := by omega
    rw [hs]
    cases hm : findMin s.queue with
    | none =>
      simp only [runUntil, hm] at hr ⊢
      exact hr
    | some e =>
      simp only [runUntil, hm] at hr ⊢
      by_cases ht : t ≤ e.time
      · rw [if_pos ht] at hr ⊢; exact hr
      · rw [if_neg ht] at hr ⊢; exact ih k t _ s2 hr

theorem runUntil_comp {σ : Type} (h : Handler σ) :
    ∀ f1 f2 t1 t2 (s s1 s2 : SimSt σ), t1 ≤ t2 →
      runUntil h f1 t1 s = some s1 → runUntil h f2 t2 s1 = some s2 →
      runUntil h (f1 + f2) t2 s = some s2 := by
  intro f1
  induction f1 with
  | zero => intro f2 t1 t2 s s1 s2 _ hr; exact absurd hr (by simp [runUntil])
  | succ n ih =>
    intro f2 t1 t2 s s1 s2 hle hr1 hr2
    cases hm : findMin s.queue with
    | none =>
      simp only [runUntil, hm] at hr1
      cases hr1
      rw [runUntil_now_irrel] at hr2
      have hmono := runUntil_mono h f2 (n + 1) t2 s s2 hr2
      rw [Nat.add_comm f2 (n + 1)] at hmono
      exact hmono
    | some e =>
      simp only [runUntil, hm] at hr1
      by_cases ht : t1 ≤ e.time
      · rw [if_pos ht] at hr1
        cases hr1
        rw [runUntil_now_irrel] at hr2
        have hmono := runUntil_mono h f2 (n + 1) t2 s s2 hr2
        rw [Nat.add_comm f2 (n + 1)] at hmono
        exact hmono
      · rw [if_neg ht] at hr1
        have hrec := ih f2 t1 t2 _ s1 s2 hle hr1 hr2
        have hrw : n + 1 + f2 = (n + f2) + 1 := by omega
        rw [hrw]
        simp only [runUntil, hm]
        rw [if_neg (by push_neg at ht ⊢; exact lt_of_lt_of_le ht hle)]
        exact hrec

theorem slicedRun_of_done {σ : Type} (h : Handler σ) (d : Nat) (fuel : Nat) :
    ∀ n (s : SimSt σ), ¬ s.now < (d : Rat) + 1 → slicedRun h d fuel n s = some s := by
  intro n s hn
  cases n with
  | zero => rw [slicedRun, if_neg hn]
  | succ m => rw [slicedRun, if_neg hn]

/-- C3: slice-size independence of the run loop.  Whatever final state the
5-second-sliced loop of `NetSim.run` reaches, a single engine run up to
`duration + 1` reaches the same final state (simulation data and statistics
included); moreover the engine is deterministic, so that state is the unique
outcome of the unsliced run. -/
theorem C3_slicing_irrelevant {σ : Type} (h : Handler σ) (d : Nat) :
    (∀ fuel n (s sf : SimSt σ), s.now < (d : Rat) + 1 →
      slicedRun h d fuel n s = some sf →
      ∃ F, runUntil h F ((d : Rat) + 1) s = some sf) ∧
    (∀ f1 f2 t (s a b : SimSt σ),
      runUntil h f1 t s = some a → runUntil h f2 t s = some b → a = b) := by
  constructor
  · intro fuel n
    induction n with
    | zero =>
      intro s sf hlt hr
      rw [slicedRun, if_pos hlt] at hr
      exact absurd hr (by simp)
    | succ m ih =>
      intro s sf hlt hr
      rw [slicedRun, if_pos hlt] at hr
      cases hs : runUntil h fuel (min ((d : Rat) + 1) (s.now + 5)) s with
      | none => rw [hs] at hr; exact absurd hr (by simp)
      | some s1 =>
        rw [hs] at hr
        simp only [Option.bind] at hr
        have hnow : s1.now = min ((d : Rat) + 1) (s.now + 5) := runUntil_now h _ _ s s1 hs
        by_cases hfin : s1.now < (d : Rat) + 1
        · obtain ⟨F, hF⟩ := ih s1 sf hfin hr
          have hle : min ((d : Rat) + 1) (s.now + 5) ≤ (d : Rat) + 1 := min_le_left _ _
          exact ⟨fuel + F, runUntil_comp h fuel F _ _ s s1 sf hle hs hF⟩
        · rw [slicedRun_of_done h d fuel m s1 hfin] at hr
          cases hr
          refine ⟨fuel, ?_⟩
          have hmin : min ((d : Rat) + 1) (s.now + 5) = (d : Rat) + 1 := by
            by_contra hne
            exact hfin (hnow ▸ lt_of_le_of_ne (min_le_left _ _) hne)
          rw [hmin] at hs
          exact hs
  · intro f1 f2 t s a b h1 h2
    have ha := runUntil_mono h f1 f2 t s a h1
    have hb := runUntil_mono h f2 f1 t s b h2
    rw [Nat.add_comm f2 f1] at hb
    rw [ha] at hb
    cases hb
    rfl

/-- A tiny concrete handler for the C3 witness: each event increments a
counter and schedules nothing. -/
def exHandler : Handler Nat := fun _ _ k => (k + 1, [])

/-- A concrete engine state for the C3 witness: one event at time 2. -/
def exInit : SimSt Nat := ⟨0, 1, [⟨2, 0, 0⟩], 0⟩

/-- Witness for C3: a concrete sliced run and the single run it induces. -/
theorem C3_slicing_irrelevant_witness :
    exInit.now < ((3 : Nat) : Rat) + 1 ∧
    slicedRun exHandler 3 3 2 exInit = some ⟨4, 1, [], 1⟩ ∧
    (∃ F, runUntil exHandler F (((3 : Nat) : Rat) + 1) exInit = some ⟨4, 1, [], 1⟩) :=
  ⟨by norm_num [exInit],
   by norm_num [slicedRun, runUntil, exInit, exHandler, findMin, doEvent, pushEvents],
   (C3_slicing_irrelevant exHandler 3).1 3 2 exInit ⟨4, 1, [], 1⟩
     (by norm_num [exInit])
     (by norm_num [slicedRun, runUntil, exInit, exHandler, findMin, doEvent, pushEvents])⟩

/-! ## The contact logger (NetSim.contact_logger lines 121-149).

The contact-plan queries `next_event` and `at` live in `pons/net/contactplan.py`,
which is not under src; they are modelled from spec 4.1: `next_boundary(after)`
is the earliest interval start or end strictly greater than `after` (none if no
more), and `events_active_at(t)` is every interval containing `t`, including
intervals starting or ending exactly at `t`. -/

/-- Minimum of a list of rationals (`none` on the empty list). -/
def minQ : List Rat → Option Rat
  | [] => none
  | x :: rest =>
    match minQ rest with
    | none => some x
    | some m => some (min x m)

/-- All interval boundaries of a contact plan. -/
def boundaries (cp : ContactPlan) : List Rat :=
  (cp.map (fun c => [c.tstart, c.tend])).flatten

/-- Modelled from the spec: `ContactPlan.next_event(t)` (spec `next_boundary`)
returns the earliest boundary strictly greater than `t`, if any. -/
def next_event (cp : ContactPlan) (t : Rat) : Option Rat :=
  minQ ((boundaries cp).filter (fun b => decide (t < b)))

/-- Modelled from the spec: `ContactPlan.at(t)` (spec `events_active_at`)
returns every contact whose interval contains `t`, boundaries included. -/
def at_q (cp : ContactPlan) (t : Rat) : List Contact :=
  cp.filter (fun c => decide (c.tstart ≤ t) && decide (t ≤ c.tend))

/-- The payload of a `LINK` event-log record: `{"event": ..., "nodes": ...}`. -/
structure LinkRec where
  event : String
  nodes : Nat × Nat
deriving DecidableEq

/-- The `LINK` records one contact `e` contributes at instant `t` (lines
141-144): `UP` if it starts at `t`, `DOWN` if it ends at `t`. -/
def linkRecsFor (t : Rat) (e : Contact) : List (Rat × LinkRec) :=
  (if e.tstart = t then [(t, LinkRec.mk "UP" e.nodes)] else []) ++
  (if e.tend = t then [(t, LinkRec.mk "DOWN" e.nodes)] else [])

/-- The records the contact logger emits at one boundary instant `t` (lines
140-144): for every contact active at `t`, `UP` if it starts at `t` and
`DOWN` if it ends at `t`. -/
def emitAt (cp : ContactPlan) (t : Rat) : List (Rat × LinkRec) :=
  (at_q cp t).flatMap (linkRecsFor t)

/-- The boundary instants the contact-logger loop visits, starting at `total`
(fuel-indexed; the fuel used below always suffices). -/
def visitedT (cp : ContactPlan) (dur : Rat) : Nat → Rat → List Rat
  | 0, _ => []
  | fuel + 1, total =>
    total ::
      (match next_event cp total with
       | none => []
       | some nb => if nb ≤ dur then visitedT cp dur fuel nb else [])

/-- The contact-logger loop (lines 135-149): emit at the current boundary,
then continue at the next boundary unless there is none or it exceeds the
duration. -/
def loggerLoop (cp : ContactPlan) (dur : Rat) : Nat → Rat → List (Rat × LinkRec)
  | 0, _ => []
  | fuel + 1, total =>
    emitAt cp total ++
      (match next_event cp total with
       | none => []
       | some nb => if nb ≤ dur then loggerLoop cp dur fuel nb else [])

/-- The full emission list of `NetSim.contact_logger` (lines 121-149): nothing
unless logging is on; otherwise start at the first boundary after 0 (none
means an empty or eventless plan). -/
def contactLoggerEmits (logging : Bool) (cp : ContactPlan) (dur : Rat) :
    List (Rat × LinkRec) :=
  if logging then
    match next_event cp 0 with
    | none => []
    | some b1 => loggerLoop cp dur (2 * cp.length + 1) b1
  else []

/-- The LINK records actually emitted during `NetSim.run`: the run loop stops
the engine at `duration + 1` (exclusive, the stop event is urgent), so only
emissions strictly before `duration + 1` happen. -/
def runEmittedLinks (logging : Bool) (cp : ContactPlan) (dur : Rat) :
    List (Rat × LinkRec) :=
  (contactLoggerEmits logging cp dur).filter (fun e => decide (e.1 < dur + 1))

theorem minQ_spec :
    ∀ (l : List Rat) (m : Rat), minQ l = some m → m ∈ l ∧ ∀ x ∈ l, m ≤ x := by
  intro l
  induction l with
  | nil => intro m hm; exact absurd hm (by simp [minQ])
  | cons x rest ih =>
    intro m hm
    cases hr : minQ rest with
    | none =>
      simp only [minQ, hr] at hm
      cases hm
      have hempty : rest = [] := by
        cases rest with
        | nil => rfl
        | cons y ys => simp [minQ] at hr; cases h2 : minQ ys <;> simp [h2] at hr
      subst hempty
      simp
    | some m0 =>
      simp only [minQ, hr] at hm
      cases hm
      obtain ⟨hmem, hle⟩ := ih m0 hr
      rcases min_cases x m0 with ⟨he, hxm⟩ | ⟨he, hxm⟩
      · rw [he]
        exact ⟨List.mem_cons_self x rest, by
          intro y hy
          rcases List.mem_cons.mp hy with rfl | hy2
          · exact le_refl _
          · exact le_trans hxm (hle y hy2)⟩
      · rw [he]
        exact ⟨List.mem_cons_of_mem x hmem, by
          intro y hy
          rcases List.mem_cons.mp hy with rfl | hy2
          · exact le_of_lt hxm
          · exact hle y hy2⟩

theorem minQ_eq_none : ∀ l : List Rat, minQ l = none ↔ l = [] := by
  intro l
  cases l with
  | nil => simp [minQ]
  | cons x rest =>
    simp only [minQ]
    cases hr : minQ rest <;> simp

theorem next_event_some {cp : ContactPlan} {t b : Rat}
    (h : next_event cp t = some b) :
    t < b ∧ b ∈ boundaries cp ∧ ∀ x ∈ boundaries cp, t < x → b ≤ x := by
  obtain ⟨hmem, hle⟩ := minQ_spec _ b h
  rw [List.mem_filter] at hmem
  refine ⟨of_decide_eq_true hmem.2, hmem.1, ?_⟩
  intro x hx htx
  exact hle x (List.mem_filter.mpr ⟨hx, decide_eq_true htx⟩)

theorem next_event_none {cp : ContactPlan} {t : Rat}
    (h : next_event cp t = none) : ∀ x ∈ boundaries cp, x ≤ t := by
  intro x hx
  rw [next_event, minQ_eq_none] at h
  by_contra hlt
  push_neg at hlt
  have : x ∈ (boundaries cp).filter (fun b => decide (t < b)) :=
    List.mem_filter.mpr ⟨hx, decide_eq_true hlt⟩
  rw [h] at this
  exact absurd this (List.not_mem_nil x)

theorem emitAt_time {cp : ContactPlan} {t : Rat} :
    ∀ e ∈ emitAt cp t, e.1 = t := by
  intro e he
  rw [emitAt, List.mem_flatMap] at he
  obtain ⟨c, _, hec⟩ := he
  rw [linkRecsFor, List.mem_append] at hec
  rcases hec with h1 | h1
  · by_cases hc : c.tstart = t
    · rw [if_pos hc] at h1
      rw [List.mem_singleton.mp h1]
    · rw [if_neg hc] at h1
      exact absurd h1 (List.not_mem_nil e)
  · by_cases hc : c.tend = t
    · rw [if_pos hc] at h1
      rw [List.mem_singleton.mp h1]
    · rw [if_neg hc] at h1
      exact absurd h1 (List.not_mem_nil e)

theorem loggerLoop_eq_flatMap (cp : ContactPlan) (dur : Rat) :
    ∀ fuel total,
      loggerLoop cp dur fuel total = (visitedT cp dur fuel total).flatMap (emitAt cp) := by
  intro fuel
  induction fuel with
  | zero => intro total; rfl
  | succ n ih =>
    intro total
    cases hne : next_event cp total with
    | none =>
      simp only [loggerLoop, visitedT, hne, List.flatMap_cons, List.flatMap_nil,
        List.append_nil]
    | some nb =>
      by_cases hd : nb ≤ dur
      · simp only [loggerLoop, visitedT, hne, List.flatMap_cons, if_pos hd, ih nb]
      · simp only [loggerLoop, visitedT, hne, List.flatMap_cons, if_neg hd,
          List.flatMap_nil, List.append_nil]

theorem visitedT_lb (cp : ContactPlan) (dur : Rat) :
    ∀ fuel total u, u ∈ visitedT cp dur fuel total → total ≤ u := by
  intro fuel
  induction fuel with
  | zero => intro total u hu; exact absurd hu (List.not_mem_nil u)
  | succ n ih =>
    intro total u hu
    rw [visitedT] at hu
    rcases List.mem_cons.mp hu with rfl | hu2
    · exact le_refl u
    · cases hne : next_event cp total with
      | none => rw [hne] at hu2; exact absurd hu2 (List.not_mem_nil u)
      | some nb =>
        rw [hne] at hu2
        simp only [] at hu2
        by_cases hd : nb ≤ dur
        · rw [if_pos hd] at hu2
          exact le_trans (le_of_lt (next_event_some hne).1) (ih nb u hu2)
        · rw [if_neg hd] at hu2
          exact absurd hu2 (List.not_mem_nil u)

theorem visitedT_pairwise (cp : ContactPlan) (dur : Rat) :
    ∀ fuel total, (visitedT cp dur fuel total).Pairwise (· < ·) := by
  intro fuel
  induction fuel with
  | zero => intro total; exact List.Pairwise.nil
  | succ n ih =>
    intro total
    rw [visitedT, List.pairwise_cons]
    constructor
    · intro u hu
      cases hne : next_event cp total with
      | none => rw [hne] at hu; exact absurd hu (List.not_mem_nil u)
      | some nb =>
        rw [hne] at hu
        simp only [] at hu
        by_cases hd : nb ≤ dur
        · rw [if_pos hd] at hu
          exact lt_of_lt_of_le (next_event_some hne).1 (visitedT_lb cp dur n nb u hu)
        · rw [if_neg hd] at hu
          exact absurd hu (List.not_mem_nil u)
    · cases hne : next_event cp total with
      | none => exact List.Pairwise.nil
      | some nb =>
        simp only []
        by_cases hd : nb ≤ dur
        · rw [if_pos hd]; exact ih nb
        · rw [if_neg hd]; exact List.Pairwise.nil

theorem visitedT_nodup (cp : ContactPlan) (dur : Rat) (fuel : Nat) (total : Rat) :
    (visitedT cp dur fuel total).Nodup :=
  (visitedT_pairwise cp dur fuel total).nodup

theorem visitedT_sound (cp : ContactPlan) (dur : Rat) :
    ∀ fuel total u, u ∈ visitedT cp dur fuel total → u = total ∨ u ≤ dur := by
  intro fuel
  induction fuel with
  | zero => intro total u hu; exact absurd hu (List.not_mem_nil u)
  | succ n ih =>
    intro total u hu
    rw [visitedT] at hu
    rcases List.mem_cons.mp hu with rfl | hu2
    · exact Or.inl rfl
    · cases hne : next_event cp total with
      | none => rw [hne] at hu2; exact absurd hu2 (List.not_mem_nil u)
      | some nb =>
        rw [hne] at hu2
        simp only [] at hu2
        by_cases hd : nb ≤ dur
        · rw [if_pos hd] at hu2
          rcases ih nb u hu2 with rfl | h2
          · exact Or.inr hd
          · exact Or.inr h2
        · rw [if_neg hd] at hu2
          exact absurd hu2 (List.not_mem_nil u)

theorem countP_lt_of_witness {α : Type} (p q : α → Bool) :
    ∀ (l : List α) (a : α), a ∈ l → p a = true → q a = false →
      (∀ x ∈ l, q x = true → p x = true) → l.countP q < l.countP p := by
  intro l
  induction l with
  | nil => intro a ha; exact absurd ha (List.not_mem_nil a)
  | cons x rest ih =>
    intro a ha hpa hqa himp
    rw [List.countP_cons, List.countP_cons]
    rcases List.mem_cons.mp ha with rfl | ha2
    · rw [if_pos hpa, if_neg (by simp [hqa])]
      have hmono : rest.countP q ≤ rest.countP p :=
        List.countP_mono_left (fun y hy hqy => himp y (List.mem_cons_of_mem _ hy) hqy)
      omega
    · have hrec := ih a ha2 hpa hqa (fun y hy hqy => himp y (List.mem_cons_of_mem x hy) hqy)
      have haddend : (if q x = true then 1 else 0) ≤ (if p x = true then 1 else 0) := by
        by_cases hqx : q x = true
        · rw [if_pos hqx, if_pos (himp x (List.mem_cons_self x rest) hqx)]
        · rw [if_neg hqx]
          split <;> omega
      omega

theorem visitedT_mem_iff (cp : ContactPlan) (dur : Rat) :
    ∀ fuel total,
      (boundaries cp).countP (fun b => decide (total < b) && decide (b ≤ dur)) < fuel →
      ∀ u, u ∈ visitedT cp dur fuel total ↔
        (u = total ∨ (u ∈ boundaries cp ∧ total < u ∧ u ≤ dur)) := by
  intro fuel
  induction fuel with
  | zero => intro total hf; omega
  | succ n ih =>
    intro total hf u
    rw [visitedT, List.mem_cons]
    cases hne : next_event cp total with
    | none =>
      have hnone := next_event_none hne
      simp only [List.not_mem_nil, or_false]
      constructor
      · exact Or.inl
      · rintro (rfl | ⟨hub, hlt, _⟩)
        · rfl
        · exact absurd (hnone u hub) (not_le.mpr hlt)
    | some nb =>
      obtain ⟨htnb, hnbB, hnbmin⟩ := next_event_some hne
      simp only []
      by_cases hd : nb ≤ dur
      · rw [if_pos hd]
        have hq : (boundaries cp).countP
            (fun b => decide (nb < b) && decide (b ≤ dur)) < n := by
          have hstrict := countP_lt_of_witness
            (fun b => decide (total < b) && decide (b ≤ dur))
            (fun b => decide (nb < b) && decide (b ≤ dur))
            (boundaries cp) nb hnbB
            (by rw [Bool.and_eq_true, decide_eq_true_eq, decide_eq_true_eq]
                exact ⟨htnb, hd⟩)
            (by simp)
            (by intro x _ hx
                rw [Bool.and_eq_true, decide_eq_true_eq, decide_eq_true_eq] at hx
                rw [Bool.and_eq_true, decide_eq_true_eq, decide_eq_true_eq]
                exact ⟨lt_trans htnb hx.1, hx.2⟩)
          omega
        rw [ih nb hq u]
        constructor
        · rintro (rfl | (rfl | ⟨hub, hlt, hle⟩))
          · exact Or.inl rfl
          · exact Or.inr ⟨hnbB, htnb, hd⟩
          · exact Or.inr ⟨hub, lt_trans htnb hlt, hle⟩
        · rintro (rfl | ⟨hub, hlt, hle⟩)
          · exact Or.inl rfl
          · rcases eq_or_lt_of_le (hnbmin u hub hlt) with rfl | hnblt
            · exact Or.inr (Or.inl rfl)
            · exact Or.inr (Or.inr ⟨hub, hnblt, hle⟩)
      · rw [if_neg hd]
        simp only [List.not_mem_nil, or_false]
        constructor
        · exact Or.inl
        · rintro (rfl | ⟨hub, hlt, hle⟩)
          · rfl
          · exact absurd (le_trans (hnbmin u hub hlt) hle) hd

theorem emitAt_cons (c : Contact) (rest : ContactPlan) (t : Rat) :
    emitAt (c :: rest) t =
      (if (decide (c.tstart ≤ t) && decide (t ≤ c.tend)) = true
        then linkRecsFor t c else []) ++ emitAt rest t := by
  rw [emitAt, at_q, List.filter_cons]
  by_cases hin : (decide (c.tstart ≤ t) && decide (t ≤ c.tend)) = true
  · rw [if_pos hin, if_pos hin, List.flatMap_cons]
    rfl
  · rw [if_neg hin, if_neg hin, List.nil_append]
    rfl

theorem count_linkRecsFor_up (t : Rat) (c : Contact) (n : Nat × Nat) :
    (linkRecsFor t c).count (t, LinkRec.mk "UP" n) =
      if (decide (c.tstart = t) && decide (c.nodes = n)) = true then 1 else 0 := by
  rw [linkRecsFor, List.count_append]
  by_cases h1 : c.tstart = t <;> by_cases h2 : c.tend = t <;> by_cases h3 : c.nodes = n <;>
    simp [h1, h2, h3, List.count_singleton, List.count_cons, Prod.ext_iff]

theorem count_linkRecsFor_down (t : Rat) (c : Contact) (n : Nat × Nat) :
    (linkRecsFor t c).count (t, LinkRec.mk "DOWN" n) =
      if (decide (c.tend = t) && decide (c.nodes = n)) = true then 1 else 0 := by
  rw [linkRecsFor, List.count_append]
  by_cases h1 : c.tstart = t <;> by_cases h2 : c.tend = t <;> by_cases h3 : c.nodes = n <;>
    simp [h1, h2, h3, List.count_singleton, List.count_cons, Prod.ext_iff]

theorem count_emitAt_up (t : Rat) (n : Nat × Nat) :
    ∀ cp : ContactPlan, (∀ c ∈ cp, c.tstart ≤ c.tend) →
      (emitAt cp t).count (t, LinkRec.mk "UP" n) =
        cp.countP (fun c => decide (c.tstart = t) && decide (c.nodes = n)) := by
  intro cp
  induction cp with
  | nil => intro _; rfl
  | cons c rest ih =>
    intro hwf
    have hrest := ih (fun x hx => hwf x (List.mem_cons_of_mem c hx))
    rw [emitAt_cons, List.count_append, hrest, List.countP_cons]
    by_cases hin : (decide (c.tstart ≤ t) && decide (t ≤ c.tend)) = true
    · rw [if_pos hin, count_linkRecsFor_up]
      omega
    · rw [if_neg hin, List.count_nil]
      have hz : (decide (c.tstart = t) && decide (c.nodes = n)) = false := by
        by_contra hne
        rw [Bool.not_eq_false, Bool.and_eq_true, decide_eq_true_eq, decide_eq_true_eq] at hne
        apply hin
        rw [Bool.and_eq_true, decide_eq_true_eq, decide_eq_true_eq]
        exact ⟨le_of_eq hne.1, hne.1 ▸ hwf c (List.mem_cons_self c rest)⟩
      rw [hz]
      simp

theorem count_emitAt_down (t : Rat) (n : Nat × Nat) :
    ∀ cp : ContactPlan, (∀ c ∈ cp, c.tstart ≤ c.tend) →
      (emitAt cp t).count (t, LinkRec.mk "DOWN" n) =
        cp.countP (fun c => decide (c.tend = t) && decide (c.nodes = n)) := by
  intro cp
  induction cp with
  | nil => intro _; rfl
  | cons c rest ih =>
    intro hwf
    have hrest := ih (fun x hx => hwf x (List.mem_cons_of_mem c hx))
    rw [emitAt_cons, List.count_append, hrest, List.countP_cons]
    by_cases hin : (decide (c.tstart ≤ t) && decide (t ≤ c.tend)) = true
    · rw [if_pos hin, count_linkRecsFor_down]
      omega
    · rw [if_neg hin, List.count_nil]
      have hz : (decide (c.tend = t) && decide (c.nodes = n)) = false := by
        by_contra hne
        rw [Bool.not_eq_false, Bool.and_eq_true, decide_eq_true_eq, decide_eq_true_eq] at hne
        apply hin
        rw [Bool.and_eq_true, decide_eq_true_eq, decide_eq_true_eq]
        exact ⟨hne.1 ▸ hwf c (List.mem_cons_self c rest), le_of_eq hne.1.symm⟩
      rw [hz]
      simp

theorem count_emitAt_ne {cp : ContactPlan} {u t : Rat} (r : LinkRec) (h : u ≠ t) :
    (emitAt cp u).count (t, r) = 0 := by
  rw [List.count_eq_zero]
  intro hmem
  exact h (emitAt_time (t, r) hmem).symm

theorem count_flatMap {α β : Type} [BEq β] (f : α → List β) (b : β) :
    ∀ l : List α, (l.flatMap f).count b = (l.map (fun x => (f x).count b)).sum := by
  intro l
  induction l with
  | nil => rfl
  | cons x rest ih =>
    rw [List.flatMap_cons, List.count_append, List.map_cons, List.sum_cons, ih]

theorem sum_map_ite_count (t : Rat) (K : Nat) :
    ∀ l : List Rat, (l.map (fun u => if u = t then K else 0)).sum = K * l.count t := by
  intro l
  induction l with
  | nil => simp
  | cons x rest ih =>
    rw [List.map_cons, List.sum_cons, ih, List.count_cons]
    by_cases hxt : x = t
    · rw [if_pos hxt, if_pos (by exact beq_iff_eq.mpr hxt)]
      ring
    · rw [if_neg hxt, if_neg (by simp [hxt])]
      ring

/-- The number of times record `(t, r)` occurs in the logger trace, when the
per-instant count is `K` at `t`: `K` if `t` is visited, 0 otherwise. -/
theorem count_loggerLoop (cp : ContactPlan) (dur : Rat) (fuel : Nat) (start t : Rat)
    (r : LinkRec) (K : Nat)
    (hK : (emitAt cp t).count (t, r) = K) :
    (loggerLoop cp dur fuel start).count (t, r) =
      K * (visitedT cp dur fuel start).count t := by
  rw [loggerLoop_eq_flatMap, count_flatMap]
  rw [← sum_map_ite_count]
  congr 1
  apply List.map_congr_left
  intro u _
  by_cases hu : u = t
  · rw [hu, hK, if_pos rfl]
  · rw [count_emitAt_ne r hu, if_neg hu]

theorem boundaries_length : ∀ cp : ContactPlan, (boundaries cp).length = 2 * cp.length := by
  intro cp
  induction cp with
  | nil => rfl
  | cons c rest ih =>
    rw [boundaries, List.map_cons, List.flatten_cons, List.length_append]
    rw [boundaries] at ih
    rw [ih, List.length_cons]
    simp
    omega

theorem mem_boundaries_start {cp : ContactPlan} {c : Contact} (hc : c ∈ cp) :
    c.tstart ∈ boundaries cp := by
  rw [boundaries, List.mem_flatten]
  exact ⟨[c.tstart, c.tend], List.mem_map_of_mem _ hc, by simp⟩

theorem mem_boundaries_end {cp : ContactPlan} {c : Contact} (hc : c ∈ cp) :
    c.tend ∈ boundaries cp := by
  rw [boundaries, List.mem_flatten]
  exact ⟨[c.tstart, c.tend], List.mem_map_of_mem _ hc, by simp⟩

/-- C5 (amended): when event logging is on, for every contact interval with
strictly positive start (a contact starting exactly at time 0 is missed: the
first queried boundary is strictly after 0) and boundaries at most the
duration, the contact logger emits during the run exactly one `UP` record at
the interval start per plan entry with that start and pair, and exactly one
`DOWN` record at the interval end per plan entry with that end and pair: each
boundary event is reported once, at the boundary instant, not twice. -/
theorem C5_contact_logger_links (cp : ContactPlan) (dur : Rat) (c : Contact)
    (hwf : ∀ x ∈ cp, x.tstart ≤ x.tend)
    (hc : c ∈ cp) (hs : 0 < c.tstart) (he : c.tend ≤ dur) :
    (runEmittedLinks true cp dur).count (c.tstart, LinkRec.mk "UP" c.nodes) =
      cp.countP (fun x => decide (x.tstart = c.tstart) && decide (x.nodes = c.nodes)) ∧
    (runEmittedLinks true cp dur).count (c.tend, LinkRec.mk "DOWN" c.nodes) =
      cp.countP (fun x => decide (x.tend = c.tend) && decide (x.nodes = c.nodes)) := by
  have hsd : c.tstart ≤ dur := le_trans (hwf c hc) he
  have hstartB : c.tstart ∈ boundaries cp := mem_boundaries_start hc
  have hendB : c.tend ∈ boundaries cp := mem_boundaries_end hc
  cases hne : next_event cp 0 with
  | none => exact absurd (next_event_none hne c.tstart hstartB) (not_le.mpr hs)
  | some b1 =>
    obtain ⟨h0b1, hb1B, hb1min⟩ := next_event_some hne
    have hb1start : b1 ≤ c.tstart := hb1min _ hstartB hs
    have htrace : contactLoggerEmits true cp dur =
        loggerLoop cp dur (2 * cp.length + 1) b1 := by
      rw [contactLoggerEmits, if_pos rfl, hne]
    have hfuel : (boundaries cp).countP
        (fun b => decide (b1 < b) && decide (b ≤ dur)) < 2 * cp.length + 1 := by
      have h1 := List.countP_le_length
        (fun b => decide (b1 < b) && decide (b ≤ dur)) (l := boundaries cp)
      rw [boundaries_length] at h1
      omega
    have hmemiff := visitedT_mem_iff cp dur (2 * cp.length + 1) b1 hfuel
    have hnd := visitedT_nodup cp dur (2 * cp.length + 1) b1
    have hstartV : c.tstart ∈ visitedT cp dur (2 * cp.length + 1) b1 := by
      rw [hmemiff]
      rcases eq_or_lt_of_le hb1start with h | h
      · exact Or.inl h.symm
      · exact Or.inr ⟨hstartB, h, hsd⟩
    have hendV : c.tend ∈ visitedT cp dur (2 * cp.length + 1) b1 := by
      rw [hmemiff]
      rcases eq_or_lt_of_le (le_trans hb1start (hwf c hc)) with h | h
      · exact Or.inl h.symm
      · exact Or.inr ⟨hendB, h, he⟩
    constructor
    · rw [runEmittedLinks,
        List.count_filter (by
          simp only [decide_eq_true_eq]
          linarith), htrace,
        count_loggerLoop cp dur _ b1 c.tstart _ _ (count_emitAt_up c.tstart c.nodes cp hwf),
        List.count_eq_one_of_mem hnd hstartV, Nat.mul_one]
    · rw [runEmittedLinks,
        List.count_filter (by
          simp only [decide_eq_true_eq]
          linarith), htrace,
        count_loggerLoop cp dur _ b1 c.tend _ _ (count_emitAt_down c.tend c.nodes cp hwf),
        List.count_eq_one_of_mem hnd hendV, Nat.mul_one]

/-- The one-contact plan of the C5 witness: window [10, 50] between 1 and 2. -/
def c5ex : Contact := ⟨(1, 2), 10, 50⟩

/-- Witness for C5 at a concrete plan and contact. -/
theorem C5_contact_logger_links_witness :
    (∀ x ∈ [c5ex], x.tstart ≤ x.tend) ∧ c5ex ∈ [c5ex] ∧ (0 : Rat) < c5ex.tstart ∧
    c5ex.tend ≤ (120 : Rat) ∧
    ((runEmittedLinks true [c5ex] 120).count (c5ex.tstart, LinkRec.mk "UP" c5ex.nodes) =
      List.countP (fun x => decide (x.tstart = c5ex.tstart) && decide (x.nodes = c5ex.nodes))
        [c5ex] ∧
     (runEmittedLinks true [c5ex] 120).count (c5ex.tend, LinkRec.mk "DOWN" c5ex.nodes) =
      List.countP (fun x => decide (x.tend = c5ex.tend) && decide (x.nodes = c5ex.nodes))
        [c5ex]) :=
  ⟨by intro x hx; rw [List.mem_singleton.mp hx]; norm_num [c5ex],
   List.mem_singleton.mpr rfl, by norm_num [c5ex], by norm_num [c5ex],
   C5_contact_logger_links [c5ex] 120 c5ex
     (by intro x hx; rw [List.mem_singleton.mp hx]; norm_num [c5ex])
     (List.mem_singleton.mpr rfl) (by norm_num [c5ex]) (by norm_num [c5ex])⟩

/-- The plan of the C5 counterexample: a contact starting exactly at time 0. -/
def c5cex : ContactPlan := [⟨(1, 2), 0, 30⟩]

/-- C5 counterexample: with event logging on and the non-empty plan `c5cex`
whose single interval [0, 30] has both boundaries inside the run horizon
(duration 120), the logger emits NO `UP` record at the interval start — the
whole run emission list is just the `DOWN` record — falsifying the claim that
every such interval gets exactly one `UP` record at its start instant. -/
theorem C5_counterexample_start_at_zero :
    (⟨(1, 2), 0, 30⟩ : Contact) ∈ c5cex ∧ (0 : Rat) ≤ 120 ∧ (30 : Rat) ≤ 120 ∧
    runEmittedLinks true c5cex 120 = [((30 : Rat), LinkRec.mk "DOWN" (1, 2))] ∧
    (runEmittedLinks true c5cex 120).count ((0 : Rat), LinkRec.mk "UP" (1, 2)) = 0 := by
  refine ⟨List.mem_singleton.mpr rfl, by norm_num, by norm_num, ?_, ?_⟩ <;>
    norm_num [runEmittedLinks, contactLoggerEmits, loggerLoop, emitAt, at_q,
      linkRecsFor, next_event, boundaries, minQ, c5cex, List.filter_cons,
      List.count_cons]

/-- C9 (amended): the contact-logger loop breaks as soon as, after emitting at
the current boundary, the plan has no further boundary or the next boundary
strictly exceeds the duration; every record it emits is either at the very
first boundary after 0 (which is NOT checked against the duration) or at a
time at most the duration; and during the run no LINK record is emitted at or
after `duration + 1` — but a first boundary inside `(duration, duration+1)`
does produce a LINK record later than the duration. -/
theorem C9_contact_logger_stops (cp : ContactPlan) (dur : Rat) :
    (∀ fuel total, next_event cp total = none →
      loggerLoop cp dur (fuel + 1) total = emitAt cp total) ∧
    (∀ fuel total nb, next_event cp total = some nb → dur < nb →
      loggerLoop cp dur (fuel + 1) total = emitAt cp total) ∧
    (∀ (logging : Bool) (e : Rat × LinkRec), e ∈ contactLoggerEmits logging cp dur →
      (∃ b1, next_event cp 0 = some b1 ∧ e.1 = b1) ∨ e.1 ≤ dur) ∧
    (∀ (logging : Bool) (e : Rat × LinkRec), e ∈ runEmittedLinks logging cp dur →
      e.1 < dur + 1) := by
  refine ⟨?_, ?_, ?_, ?_⟩
  · intro fuel total hne
    simp only [loggerLoop, hne, List.append_nil]
  · intro fuel total nb hne hlt
    simp only [loggerLoop, hne, if_neg (not_le.mpr hlt), List.append_nil]
  · intro logging e he
    cases logging with
    | false => exact absurd he (List.not_mem_nil e)
    | true =>
      rw [contactLoggerEmits, if_pos rfl] at he
      cases hne : next_event cp 0 with
      | none => rw [hne] at he; exact absurd he (List.not_mem_nil e)
      | some b1 =>
        rw [hne] at he
        simp only [] at he
        rw [loggerLoop_eq_flatMap, List.mem_flatMap] at he
        obtain ⟨u, huV, heu⟩ := he
        have := emitAt_time e heu
        rcases visitedT_sound cp dur _ b1 u huV with heq | hle
        · exact Or.inl ⟨b1, rfl, this.trans heq⟩
        · exact Or.inr (this ▸ hle)
  · intro logging e he
    rw [runEmittedLinks, List.mem_filter] at he
    exact of_decide_eq_true he.2

/-- The plan of the C9 witness and counterexample: a contact from 10.5 to
10.75 against a duration of 10. -/
def c9cex : ContactPlan := [⟨(1, 2), 21 / 2, 43 / 4⟩]

/-- Witness for C9: after the first boundary 21/2 of `c9cex`, the next
boundary 43/4 exceeds the duration 10, so the loop stops there. -/
theorem C9_contact_logger_stops_witness :
    next_event c9cex (21 / 2) = some (43 / 4) ∧ (10 : Rat) < 43 / 4 ∧
    loggerLoop c9cex 10 (0 + 1) (21 / 2) = emitAt c9cex (21 / 2) :=
  ⟨by norm_num [next_event, boundaries, minQ, c9cex, List.filter_cons],
   by norm_num,
   (C9_contact_logger_stops c9cex 10).2.1 0 (21 / 2) (43 / 4)
     (by norm_num [next_event, boundaries, minQ, c9cex, List.filter_cons])
     (by norm_num)⟩

/-- C9 counterexample: the first boundary of `c9cex` lies in `(10, 11)`, is
never checked against the duration, and its `UP` record is emitted during the
run at simulated time 21/2 > duration = 10 — falsifying the claim that the
logger never emits a LINK record at a simulated time greater than the
duration. -/
theorem C9_counterexample_first_boundary :
    runEmittedLinks true c9cex 10 = [((21 / 2 : Rat), LinkRec.mk "UP" (1, 2))] ∧
    (10 : Rat) < 21 / 2 := by
  constructor
  · norm_num [runEmittedLinks, contactLoggerEmits, loggerLoop, emitAt, at_q,
      linkRecsFor, next_event, boundaries, minQ, c9cex, List.filter_cons,
      List.count_cons]
  · norm_num

end PONS
